import Mathlib

set_option maxRecDepth 10000
set_option maxHeartbeats 2000000

/-!
Verification of the openpass member-registry, token-service and photo-vault
core.  The definitions below are a shallow embedding of the Python sources
(`core/token_manager.py`, `blueprints/admin/members_import.py`,
`blueprints/admin/admin.py`, `blueprints/cards/photo.py`,
`blueprints/cards/helpers.py`): pure functions become Lean functions, the
SQLite members table becomes an explicit list of records threaded through the
commit operations, fernet and AES-CBC become symbolic authenticated-encryption
models, and `hashlib.sha256` is implemented bit-for-bit over `Nat`.
-/

namespace OpenPass

/-! ## SHA-256, as computed by `hashlib.sha256` (FIPS 180-4) -/

/-- Truncate to a 32-bit word. -/
def w32 (n : Nat) : Nat := n % 4294967296

/-- 32-bit modular addition. -/
def wadd (a b : Nat) : Nat := (a + b) % 4294967296

/-- Right rotation of a 32-bit word. -/
def rotr (n x : Nat) : Nat := w32 ((x >>> n) ||| (x <<< (32 - n)))

/-- The Ch function of SHA-256; bitwise not is xor with the 32-bit mask. -/
def schoice (x y z : Nat) : Nat := (x &&& y) ^^^ ((x ^^^ 4294967295) &&& z)

/-- The Maj function of SHA-256. -/
def smajority (x y z : Nat) : Nat := (x &&& y) ^^^ (x &&& z) ^^^ (y &&& z)

def bigSigma0 (x : Nat) : Nat := rotr 2 x ^^^ rotr 13 x ^^^ rotr 22 x

def bigSigma1 (x : Nat) : Nat := rotr 6 x ^^^ rotr 11 x ^^^ rotr 25 x

def smallSigma0 (x : Nat) : Nat := rotr 7 x ^^^ rotr 18 x ^^^ (x >>> 3)

def smallSigma1 (x : Nat) : Nat := rotr 17 x ^^^ rotr 19 x ^^^ (x >>> 10)

/-- The 64 SHA-256 round constants of FIPS 180-4, written in decimal. -/
def shaK : List Nat :=
  [1116352408, 1899447441, 3049323471, 3921009573, 961987163, 1508970993,
   2453635748, 2870763221, 3624381080, 310598401, 607225278, 1426881987,
   1925078388, 2162078206, 2614888103, 3248222580, 3835390401, 4022224774,
   264347078, 604807628, 770255983, 1249150122, 1555081692, 1996064986,
   2554220882, 2821834349, 2952996808, 3210313671, 3336571891, 3584528711,
   113926993, 338241895, 666307205, 773529912, 1294757372, 1396182291,
   1695183700, 1986661051, 2177026350, 2456956037, 2730485921, 2820302411,
   3259730800, 3345764771, 3516065817, 3600352804, 4094571909, 275423344,
   430227734, 506948616, 659060556, 883997877, 958139571, 1322822218,
   1537002063, 1747873779, 1955562222, 2024104815, 2227730452, 2361852424,
   2428436474, 2756734187, 3204031479, 3329325298]

/-- The SHA-256 initial hash value, in decimal. -/
def shaH0 : List Nat :=
  [1779033703, 3144134277, 1013904242, 2773480762, 1359893119, 2600822924,
   528734635, 1541459225]

/-- Big-endian bytes of a number, fixed width. -/
def beBytes : Nat → Nat → List Nat
  | 0, _ => []
  | k + 1, n => (n >>> (8 * k)) % 256 :: beBytes k n

/-- SHA-256 message padding: a 0x80 byte, zeros to 56 mod 64, then the
bit length as eight big-endian bytes. -/
def shaPad (msg : List Nat) : List Nat :=
  msg ++ 0x80 :: List.replicate ((119 - msg.length % 64) % 64) 0 ++ beBytes 8 (8 * msg.length)

/-- Four big-endian bytes to a 32-bit word list (16 words from 64 bytes). -/
def bytesToWords : List Nat → List Nat
  | b0 :: b1 :: b2 :: b3 :: rest =>
      (((b0 * 256 + b1) * 256 + b2) * 256 + b3) :: bytesToWords rest
  | _ => []

/-- Extend 16 message words to the 64-word schedule. -/
def shaSchedule (w16 : List Nat) : List Nat :=
  (List.range 48).foldl
    (fun w _ =>
      let n := w.length
      w ++ [wadd (wadd (smallSigma1 (w.getD (n - 2) 0)) (w.getD (n - 7) 0))
                 (wadd (smallSigma0 (w.getD (n - 15) 0)) (w.getD (n - 16) 0))])
    w16

/-- One SHA-256 round: update the eight working variables. -/
def shaRound (st : List Nat) (kw : Nat × Nat) : List Nat :=
  match st with
  | [a, b, c, d, e, f, g, h] =>
      let t1 := wadd (wadd (wadd h (bigSigma1 e)) (wadd (schoice e f g) kw.1)) kw.2
      let t2 := wadd (bigSigma0 a) (smajority a b c)
      [wadd t1 t2, a, b, c, wadd d t1, e, f, g]
  | st => st

/-- Compress one 64-byte block into the running hash state. -/
def shaBlock (st : List Nat) (block : List Nat) : List Nat :=
  let w := shaSchedule (bytesToWords block)
  let fin := (shaK.zip w).foldl shaRound st
  (st.zip fin).map (fun p => wadd p.1 p.2)

/-- Process the padded message 64 bytes at a time (structural recursion on a
block count so the kernel can evaluate it). -/
def shaBlocksGo : Nat → List Nat → List Nat → List Nat
  | 0, st, _ => st
  | k + 1, st, bytes => shaBlocksGo k (shaBlock st (bytes.take 64)) (bytes.drop 64)

/-- SHA-256 digest of a byte list, as 32 bytes. -/
def sha256bytes (msg : List Nat) : List Nat :=
  let padded := shaPad msg
  let st := shaBlocksGo (padded.length / 64) shaH0 padded
  st.foldr (fun wrd acc => beBytes 4 wrd ++ acc) []

/-- UTF-8 encoding of one character (Python `str.encode()`). -/
def utf8Char (c : Char) : List Nat :=
  let n := c.toNat
  if n < 0x80 then [n]
  else if n < 0x800 then [0xC0 ||| (n >>> 6), 0x80 ||| (n &&& 0x3F)]
  else if n < 0x10000 then
    [0xE0 ||| (n >>> 12), 0x80 ||| ((n >>> 6) &&& 0x3F), 0x80 ||| (n &&& 0x3F)]
  else
    [0xF0 ||| (n >>> 18), 0x80 ||| ((n >>> 12) &&& 0x3F),
     0x80 ||| ((n >>> 6) &&& 0x3F), 0x80 ||| (n &&& 0x3F)]

/-- UTF-8 bytes of a string. -/
def utf8 (s : String) : List Nat := (s.data.map utf8Char).flatten

/-- Lowercase hex digit. -/
def hexChar (n : Nat) : Char := "0123456789abcdef".data.getD n '0'

/-- Lowercase hex encoding of a byte list. -/
def hexOfBytes (bs : List Nat) : String :=
  ⟨(bs.map (fun b => [hexChar (b / 16), hexChar (b % 16)])).flatten⟩

/-- `hashlib.sha256(s.encode()).hexdigest()`. -/
def sha256hex (s : String) : String := hexOfBytes (sha256bytes (utf8 s))

/-! ## Python string primitives used by the sources -/

/-- The whitespace characters stripped by Python `str.strip()` (ASCII part). -/
def isPySpace (c : Char) : Bool :=
  c == ' ' || c == '\t' || c == '\n' || c == '\x0d' || c == '\x0b' || c == '\x0c'

/-- Python `str.strip()`. -/
def pyStrip (s : String) : String :=
  ⟨((s.data.dropWhile isPySpace).reverse.dropWhile isPySpace).reverse⟩

/-- Python `str.lower()` (ASCII case folding; emails in the claims are ASCII). -/
def pyLowerChar (c : Char) : Char :=
  if 'A' ≤ c ∧ c ≤ 'Z' then Char.ofNat (c.toNat + 32) else c

def pyLower (s : String) : String := ⟨s.data.map pyLowerChar⟩

/-- Python `str.split(sep)` for a one-character separator, on char lists. -/
def splitOnCharGo (c : Char) : List Char → List Char → List (List Char)
  | [], acc => [acc.reverse]
  | x :: xs, acc =>
      if x == c then acc.reverse :: splitOnCharGo c xs [] else splitOnCharGo c xs (x :: acc)

def splitOnChar (c : Char) (s : List Char) : List (List Char) := splitOnCharGo c s []

def isDigitChar (c : Char) : Bool := '0' ≤ c && c ≤ '9'

def digitsVal (cs : List Char) : Nat := cs.foldl (fun a c => 10 * a + (c.toNat - 48)) 0

/-! ## Row Validator (`members_import.validate_rows`) -/

/-- Is there a dot strictly before the last character of the list?  Used for
the domain part of the email regex: the regex splits the domain as
`[^@\s]+ "." [^@\s]+`, and since `[^@\s]` itself includes the dot, the only
requirement is one dot with at least one character before it and one after it
(so `x.y.`, `.x.y` and `...` qualify, while `.y`, `y.` and `..` do not). -/
def dotNotLast : List Char → Bool
  | [] => false
  | [_] => false
  | c :: rest => c == '.' || dotNotLast rest

/-- Decision procedure for the regular expression
`^[^@\s]+@[^@\s]+\.[^@\s]+$` (EMAIL_RE in members_import.py): exactly one
at sign, nonempty local part, no whitespace, and a dot in the domain that is
neither its first nor its last character. -/
def email_re_match (s : String) : Bool :=
  !(s.data.any isPySpace) &&
  match splitOnChar '@' s.data with
  | [l, d] =>
      !l.isEmpty &&
      (match d with
       | [] => false
       | _ :: rest => dotNotLast rest)
  | _ => false

/-- A field matched by the CPython strptime patterns for %d and %m: one or two
digits (range checking is done against the calendar below). -/
def twoDigitField (cs : List Char) : Option Nat :=
  if (cs.length = 1 ∨ cs.length = 2) ∧ cs.all isDigitChar then some (digitsVal cs) else none

/-- A field matched by the CPython strptime pattern for %Y: exactly four digits. -/
def fourDigitField (cs : List Char) : Option Nat :=
  if cs.length = 4 ∧ cs.all isDigitChar then some (digitsVal cs) else none

def isLeapYear (y : Nat) : Bool := y % 4 == 0 && (y % 100 != 0 || y % 400 == 0)

def daysInMonth (y m : Nat) : Nat :=
  if m = 2 then (if isLeapYear y then 29 else 28)
  else if m = 4 ∨ m = 6 ∨ m = 9 ∨ m = 11 then 30 else 31

/-- The dates the datetime constructor accepts (MINYEAR is 1). -/
def validDate (y m d : Nat) : Bool :=
  decide (1 ≤ y) && decide (1 ≤ m) && decide (m ≤ 12) && decide (1 ≤ d) &&
  decide (d ≤ daysInMonth y m)

/-- `datetime.strptime(s, "%d.%m.%Y")`, returning (year, month, day): three
dot-separated fields, day and month one or two digits, year exactly four
digits, and a calendar-valid date; anything else raises, modeled as `none`. -/
def strptime_dmy (s : String) : Option (Nat × Nat × Nat) :=
  match splitOnChar '.' s.data with
  | [df, mf, yf] =>
      match twoDigitField df, twoDigitField mf, fourDigitField yf with
      | some d, some m, some y => if validDate y m d then some (y, m, d) else none
      | _, _, _ => none
  | _ => none

/-- `datetime.strptime(s, "%Y-%m-%d")`, returning (year, month, day). -/
def strptime_iso (s : String) : Option (Nat × Nat × Nat) :=
  match splitOnChar '-' s.data with
  | [yf, mf, df] =>
      match fourDigitField yf, twoDigitField mf, twoDigitField df with
      | some y, some m, some d => if validDate y m d then some (y, m, d) else none
      | _, _, _ => none
  | _ => none

/-- Model of the third-party `dateutil.parser.parse(s, dayfirst=True)` used as
the third parsing stage in admin.upload_members, restricted to the
slash-separated numeric day/month/year dates relevant here, a fragment the
library accepts with dayfirst giving day-month-year order. -/
def dateutil_dayfirst (s : String) : Option (Nat × Nat × Nat) :=
  match splitOnChar '/' s.data with
  | [df, mf, yf] =>
      match twoDigitField df, twoDigitField mf, fourDigitField yf with
      | some d, some m, some y => if validDate y m d then some (y, m, d) else none
      | _, _, _ => none
  | _ => none

/-- The join-date parse chain of validate_rows: `%d.%m.%Y`, on failure
`%Y-%m-%d`; there is no further fallback in validate_rows. -/
def validate_join_date (s : String) : Option (Nat × Nat × Nat) :=
  match strptime_dmy s with
  | some ymd => some ymd
  | none => strptime_iso s

/-- The join-date parse chain of admin.upload_members: `%d.%m.%Y`, then
`%Y-%m-%d`, then the lenient dateutil day-first parser. -/
def upload_join_date (s : String) : Option (Nat × Nat × Nat) :=
  match strptime_dmy s with
  | some ymd => some ymd
  | none =>
      match strptime_iso s with
      | some ymd => some ymd
      | none => dateutil_dayfirst s

/-- A raw CSV row after header resolution (missing cells default to ""). -/
structure Row where
  email : String := ""
  firstname : String := ""
  lastname : String := ""
  joindate : String := ""
  role : String := ""
deriving DecidableEq

/-- A validated row as produced by validate_rows (the `_errors` key is
`errors`; an empty list is the commit-eligibility signal). -/
structure VRow where
  rownum : Nat
  firstname : String
  lastname : String
  email : String
  joindate : String
  join_year : Option Nat
  role : String
  errors : List String
deriving DecidableEq

/-- The error list accumulated for one row by validate_rows, in source order:
missing firstname, missing lastname, invalid email (`not email or not
EMAIL_RE.match(email)` equals a failed regex match, since the regex rejects
the empty string), batch-local duplicate email, unparseable join date.  The
rules accumulate without short-circuiting. -/
def validate_errors (seen : List String) (r : Row) : List String :=
  (if pyStrip r.firstname = "" then ["Vorname fehlt"] else []) ++
  (if pyStrip r.lastname = "" then ["Nachname fehlt"] else []) ++
  (if email_re_match (pyLower (pyStrip r.email)) then [] else ["Ungültige E-Mail-Adresse"]) ++
  (if pyLower (pyStrip r.email) ∈ seen then ["Doppelte E-Mail-Adresse"] else []) ++
  (if pyStrip r.joindate = "" then []
   else match validate_join_date (pyStrip r.joindate) with
     | some _ => []
     | none => ["Eintrittsdatum ungültig: " ++ pyStrip r.joindate])

/-- One iteration of the validate_rows loop: trim fields, lowercase the email,
accumulate all applicable errors, parse the join date.  `seen` holds the
normalized emails of all earlier rows of the batch. -/
def validateRow (seen : List String) (idx : Nat) (r : Row) : VRow :=
  { rownum := idx, firstname := pyStrip r.firstname, lastname := pyStrip r.lastname,
    email := pyLower (pyStrip r.email),
    joindate := pyStrip r.joindate,
    join_year :=
      if pyStrip r.joindate = "" then none
      else (validate_join_date (pyStrip r.joindate)).map (·.1),
    role := pyStrip r.role,
    errors := validate_errors seen r }

def validate_rows_go : List Row → List String → Nat → List VRow
  | [], _, _ => []
  | r :: rest, seen, idx =>
      let v := validateRow seen idx r
      v :: validate_rows_go rest (v.email :: seen) (idx + 1)

/-- members_import.validate_rows: one output row per input row, starting at
row number 2; every normalized email joins the batch-local duplicate set
unconditionally. -/
def validate_rows (rows : List Row) : List VRow := validate_rows_go rows [] 2

/-! ## Encrypted Registry Store (fernet fields, sqlite members table) -/

/-- Symbolic model of fernet authenticated encryption: a ciphertext either
stems from `fernet.encrypt` of a plaintext, or is a foreign or corrupted blob
on which `fernet.decrypt` raises (modeled as `none`). -/
inductive Ct where
  | enc (plain : String)
  | corrupt (junk : String)
deriving DecidableEq

def fernet_encrypt (s : String) : Ct := .enc s

def fernet_decrypt : Ct → Option String
  | .enc s => some s
  | .corrupt _ => none

/-- One row of the sqlite members table: pseudonym primary key and the
independently encrypted fields (join_year and role may be NULL). -/
structure StoredRec where
  email_hash : String
  first_name_enc : Ct
  last_name_enc : Ct
  join_year : Option Ct
  role : Option Ct
deriving DecidableEq

/-- A decrypted display record as built by admin.members_list and by the
dictionary values of members_import.sync_members. -/
structure MemberView where
  email_hash : String
  firstname : String
  lastname : String
  join_year : String
  role : String
deriving DecidableEq

/-- A NULL optional column decodes to "" without touching fernet; a present
one is decrypted. -/
def decrypt_opt_field : Option Ct → Option String
  | none => some ""
  | some c => fernet_decrypt c

/-- The four field decryptions of one members_list row: they run inside one
try block, so the first failure jumps to the except arm, which overwrites
every field with the masked placeholders. -/
def members_list_fields : Option String → Option String → Option String → Option String →
    String × String × String × String
  | some f, some l, some j, some ro => (f, l, j, ro)
  | _, _, _, _ => ("?", "?", "", "")

/-- The per-row body of admin.members_list. -/
def members_list_row (r : StoredRec) : MemberView :=
  let x := members_list_fields (fernet_decrypt r.first_name_enc)
    (fernet_decrypt r.last_name_enc) (decrypt_opt_field r.join_year) (decrypt_opt_field r.role)
  { email_hash := r.email_hash, firstname := x.1, lastname := x.2.1,
    join_year := x.2.2.1, role := x.2.2.2 }

/-- admin.members_list over the whole table.  The SQL ORDER BY last_name_enc
sorts by ciphertext, a presentation-only permutation; the rows are modeled in
stored order. -/
def members_list (table : List StoredRec) : List MemberView := table.map members_list_row

/-- The decryption core of cards.helpers._fetch_role_and_year for a found row
(role, join_year columns): each field sits in its own try block, so a failure
defaults only that field. -/
def fetch_role_and_year (roleField joinField : Option Ct) : String × Option String :=
  let role := match roleField with
    | none => ""
    | some c => (fernet_decrypt c).getD ""
  let jy := match joinField with
    | none => none
    | some c => fernet_decrypt c
  (role, jy)

/-- The pseudonym of a validated row as computed at commit time:
`hashlib.sha256(row["email"].strip().lower().encode()).hexdigest()`. -/
def row_email_hash (r : VRow) : String := sha256hex (pyLower (pyStrip r.email))

/-- Encrypt one validated row into a members-table record, exactly as the
insert statements of commit_members and commit_sync build it: join_year is
stored only when truthy, role is always encrypted (even when empty). -/
def encrypt_member_row (r : VRow) : StoredRec :=
  { email_hash := row_email_hash r
    first_name_enc := fernet_encrypt (pyStrip r.firstname)
    last_name_enc := fernet_encrypt (pyStrip r.lastname)
    join_year := match r.join_year with
      | some y => if y = 0 then none else some (fernet_encrypt (toString y))
      | none => none
    role := some (fernet_encrypt (pyStrip r.role)) }

def tableHasKey (t : List StoredRec) (h : String) : Bool := t.any (fun r => r.email_hash == h)

/-- The insert loop of members_import.commit_members.  A duplicate primary key
raises sqlite3.IntegrityError, which no handler catches: the exception
propagates and the transaction is rolled back, modeled as `.error`. -/
def commit_members_go : List VRow → List StoredRec → Nat → Except String (List StoredRec × Nat)
  | [], table, count => .ok (table, count)
  | r :: rest, table, count =>
      if r.errors ≠ [] then commit_members_go rest table count
      else
        let srec := encrypt_member_row r
        if tableHasKey table srec.email_hash then
          .error "sqlite3.IntegrityError: UNIQUE constraint failed: members.email_hash"
        else commit_members_go rest (table ++ [srec]) (count + 1)

/-- members_import.commit_members: drop and recreate the table (start from the
empty table), insert every error-free row, return the new table and the count
of committed rows; an IntegrityError aborts the whole batch. -/
def commit_members (rows : List VRow) : Except String (List StoredRec × Nat) :=
  commit_members_go rows [] 0

/-- Insertion into a Python dict: an existing key keeps its position and gets
the new value, a new key is appended. -/
def dict_insert (d : List (String × MemberView)) (k : String) (v : MemberView) :
    List (String × MemberView) :=
  if d.any (fun p => p.1 == k) then d.map (fun p => if p.1 == k then (k, v) else p)
  else d ++ [(k, v)]

/-- The existing_members dict of sync_members: email_hash to decrypted member
view (same all-or-mask decode as members_list). -/
def existing_members_dict (table : List StoredRec) : List (String × MemberView) :=
  table.foldl (fun d r => dict_insert d r.email_hash (members_list_row r)) []

/-- The csv_email_hashes set of sync_members: pseudonyms of the error-free
staged rows (membership is all that is used of the Python set). -/
def csv_email_hashes (rows : List VRow) : List String :=
  rows.filterMap (fun r => if r.errors = [] then some (row_email_hash r) else none)

structure DiffResult where
  to_delete : List MemberView
  to_add : List VRow
  existing : List VRow
deriving DecidableEq

/-- members_import.sync_members, the pure diff: stored members absent from the
staged pseudonyms go to to_delete; error-free staged rows split into to_add
and existing by stored-pseudonym membership. -/
def sync_members (rows : List VRow) (table : List StoredRec) : DiffResult :=
  let dict := existing_members_dict table
  let keys := dict.map (·.1)
  let csvh := csv_email_hashes rows
  { to_delete := (dict.filter (fun p => !(csvh.contains p.1))).map (·.2)
    to_add := rows.filter (fun r => r.errors == [] && !(keys.contains (row_email_hash r)))
    existing := rows.filter (fun r => r.errors == [] && keys.contains (row_email_hash r)) }

/-- The delete loop of commit_sync: DELETE WHERE email_hash = h, rowcount
added per statement (deleting an absent pseudonym counts zero). -/
def delete_members_go : List String → List StoredRec → Nat → (List StoredRec × Nat)
  | [], t, n => (t, n)
  | h :: hs, t, n =>
      let t2 := t.filter (fun r => !(r.email_hash == h))
      delete_members_go hs t2 (n + (t.length - t2.length))

/-- The insert loop of commit_sync: every to_add row is inserted (no error
check here); a duplicate primary key raises an uncaught IntegrityError. -/
def commit_sync_go : List VRow → List StoredRec → Nat → Except String (List StoredRec × Nat)
  | [], t, n => .ok (t, n)
  | r :: rest, t, n =>
      let srec := encrypt_member_row r
      if tableHasKey t srec.email_hash then
        .error "sqlite3.IntegrityError: UNIQUE constraint failed: members.email_hash"
      else commit_sync_go rest (t ++ [srec]) (n + 1)

/-- members_import.commit_sync: delete the named pseudonyms, then insert the
new rows; returns (table, deleted, added).  An IntegrityError propagates
before conn.commit(), so the transaction rolls back, modeled as `.error`. -/
def commit_sync (to_delete_hashes : List String) (to_add : List VRow)
    (table : List StoredRec) : Except String (List StoredRec × Nat × Nat) :=
  let del := delete_members_go to_delete_hashes table 0
  match commit_sync_go to_add del.1 0 with
  | .ok (t3, nadd) => .ok (t3, del.2, nadd)
  | .error e => .error e

/-- The record inserted for one upload_members row: date parsed by the
three-stage chain (failure only logs a warning, the row is still inserted),
join_year stored only when truthy, role always encrypted. -/
def upload_encrypt_row (r : Row) : StoredRec :=
  let raw_date := pyStrip r.joindate
  let jy := if raw_date = "" then none else (upload_join_date raw_date).map (·.1)
  { email_hash := sha256hex (pyLower (pyStrip r.email))
    first_name_enc := fernet_encrypt (pyStrip r.firstname)
    last_name_enc := fernet_encrypt (pyStrip r.lastname)
    join_year := match jy with
      | some y => if y = 0 then none else some (fernet_encrypt (toString y))
      | none => none
    role := some (fernet_encrypt (pyStrip r.role)) }

/-- The row loop of admin.upload_members: a missing mandatory field raises a
ValueError caught by the per-row handler (row skipped); a duplicate pseudonym
raises sqlite3.IntegrityError caught by its own per-row handler (row skipped,
warning flashed); everything else is inserted and counted. -/
def upload_members_go : List Row → List StoredRec → Nat → (List StoredRec × Nat)
  | [], t, n => (t, n)
  | r :: rest, t, n =>
      if pyLower (pyStrip r.email) = "" ∨ pyStrip r.firstname = "" ∨ pyStrip r.lastname = "" then
        upload_members_go rest t n
      else if tableHasKey t (sha256hex (pyLower (pyStrip r.email))) then
        upload_members_go rest t n
      else upload_members_go rest (t ++ [upload_encrypt_row r]) (n + 1)

/-- admin.upload_members insert phase (table freshly dropped and recreated). -/
def upload_members (rows : List Row) : List StoredRec × Nat := upload_members_go rows [] 0

/-! ## Photo Vault key derivation (cards/photo.py) -/

def norm_email (e : String) : String := pyLower (pyStrip e)

/-- The stored pseudonym for an email (commit path recomputes the same
normalization before hashing). -/
def member_pseudonym (e : String) : String := sha256hex (norm_email e)

/-- The AES key of the Photo Vault:
`hashlib.sha256(email.strip().lower().encode()).digest()` — the raw digest
bytes. -/
def photo_aes_key (e : String) : List Nat := sha256bytes (utf8 (norm_email e))

/-- The photo identifier:
`hashlib.sha256(email.strip().lower().encode()).hexdigest()[:16]`. -/
def photo_id_of (e : String) : String := ⟨(sha256hex (norm_email e)).data.take 16⟩

/-! ## Token Service (core/token_manager.py over itsdangerous) -/

/-- The payloads serialized by the token manager: generate_token serializes a
flat string-valued dict, generate_email_token a bare string. -/
inductive TokenPayload where
  | pdict (kvs : List (String × String))
  | pstr (s : String)
deriving DecidableEq

/-- Symbolic model of an itsdangerous URLSafeTimedSerializer token: payload,
issuance timestamp, and the signing inputs (secret and salt).  A token whose
signature verifies under (secret, salt) is exactly one produced by dumps under
that secret and salt (unforgeability of the underlying HMAC). -/
structure Signed where
  payload : TokenPayload
  issued_at : Nat
  secret : String
  salt : String
deriving DecidableEq

/-- `URLSafeTimedSerializer(secret, salt).dumps(p)` at time `now`. -/
def urlsafe_dumps (secret salt : String) (p : TokenPayload) (now : Nat) : Signed :=
  ⟨p, now, secret, salt⟩

/-- `URLSafeTimedSerializer(secret, salt).loads(tok, max_age)` at time `now`:
a signature mismatch raises BadSignature, an age above max_age raises
SignatureExpired; the callers collapse both to None. -/
def urlsafe_loads (secret salt : String) (max_age : Option Nat) (tok : Signed) (now : Nat) :
    Option TokenPayload :=
  if tok.secret = secret ∧ tok.salt = salt then
    match max_age with
    | none => some tok.payload
    | some m => if now - tok.issued_at > m then none else some tok.payload
  else none

/-- token_manager.generate_token: rejects non-dict payloads with a TypeError,
otherwise signs with the app secret and the salt `#AllezRCB`. -/
def generate_token (secret : String) (p : TokenPayload) (now : Nat) : Except String Signed :=
  match p with
  | .pdict _ => .ok (urlsafe_dumps secret "#AllezRCB" p now)
  | .pstr _ => .error "TypeError: user_data must be a dictionary"

/-- token_manager.decode_token: loads with the same secret and the salt
`#AllezRCB`, max_age from config (TOKEN_MAX_AGE_SECONDS, default 3600);
expired or bad-signature tokens both yield None. -/
def decode_token (secret : String) (max_age : Option Nat) (tok : Signed) (now : Nat) :
    Option TokenPayload :=
  urlsafe_loads secret "#AllezRCB" max_age tok now

/-- token_manager.generate_email_token: signs the bare email with the salt
`email-login`. -/
def generate_email_token (secret : String) (email : String) (now : Nat) : Signed :=
  urlsafe_dumps secret "email-login" (.pstr email) now

/-- token_manager.verify_email_token: loads with the salt `email-login` and
max_age (default 900); expired, invalid or otherwise failing verification all
yield None. -/
def verify_email_token (secret : String) (tok : Signed) (max_age : Nat) (now : Nat) :
    Option TokenPayload :=
  urlsafe_loads secret "email-login" (some max_age) tok now

/-- The default card/photo token lifetime (config.py TOKEN_MAX_AGE_SECONDS). -/
def TOKEN_MAX_AGE_DEFAULT : Nat := 3600

/-- The default magic-link lifetime (verify_email_token keyword default). -/
def EMAIL_TOKEN_MAX_AGE_DEFAULT : Nat := 900

/-- The photo token issued by cards/photo.upload_photo: a dict embedding the
user email and the photo identifier derived from it. -/
def issue_photo_token (secret email : String) (now : Nat) : Except String Signed :=
  generate_token secret (.pdict [("user_id", email), ("photo_id", photo_id_of email)]) now

/-! ## Photo retrieval (cards/photo.get_photo) -/

/-- Python dict .get on the decoded payload. -/
def lookupKV : List (String × String) → String → Option String
  | [], _ => none
  | (k, v) :: rest, key => if k = key then some v else lookupKV rest key

/-- Symbolic model of an AES-CBC encrypted photo blob (IV prefix plus
ciphertext): either a well-formed encryption under a key, or a corrupted or
foreign blob; decryption under the wrong key fails unpadding. -/
inductive AesBlob where
  | enc (key : List Nat) (plain : List Nat)
  | corrupt
deriving DecidableEq

def aes_cbc_decrypt (key : List Nat) : AesBlob → Option (List Nat)
  | .enc k p => if k = key then some p else none
  | .corrupt => none

def vaultLookup : List (String × AesBlob) → String → Option AesBlob
  | [], _ => none
  | (k, v) :: rest, key => if k = key then some v else vaultLookup rest key

inductive PhotoResp where
  | forbidden
  | notFound
  | serverError
  | ok (data : List Nat)
deriving DecidableEq

/-- The body of cards/photo.get_photo after the token has been decoded: on
None or on a payload photo_id differing from the URL-supplied one, abort(403);
a missing user_id key raises (500); a missing file gives 404; a decryption
failure aborts(500); otherwise the decrypted bytes are served. -/
def get_photo_with_payload (vault : List (String × AesBlob)) (pid : String) :
    Option TokenPayload → PhotoResp
  | none => .forbidden
  | some (.pstr _) => .serverError
  | some (.pdict kvs) =>
      if lookupKV kvs "photo_id" ≠ some pid then .forbidden
      else
        match lookupKV kvs "user_id" with
        | none => .serverError
        | some email =>
            match vaultLookup vault pid with
            | none => .notFound
            | some blob =>
                match aes_cbc_decrypt (photo_aes_key email) blob with
                | some data => .ok data
                | none => .serverError

/-- cards/photo.get_photo for a present token string. -/
def get_photo (secret : String) (max_age : Option Nat) (vault : List (String × AesBlob))
    (pid : String) (tok : Signed) (now : Nat) : PhotoResp :=
  get_photo_with_payload vault pid (decode_token secret max_age tok now)

instance : DecidableEq (Except String (List StoredRec × Nat × Nat)) := fun a b =>
  match a, b with
  | .ok x, .ok y => if h : x = y then .isTrue (by rw [h]) else .isFalse (by simp [h])
  | .error e, .error e2 => if h : e = e2 then .isTrue (by rw [h]) else .isFalse (by simp [h])
  | .ok _, .error _ => .isFalse (by simp)
  | .error _, .ok _ => .isFalse (by simp)

/-- Placeholder row used only to state positional lookups. -/
def VRow.dflt : VRow :=
  { rownum := 0, firstname := "", lastname := "", email := "", joindate := "",
    join_year := none, role := "", errors := [] }

/-- A sample error-free validated row used by concrete witnesses. -/
def sampleRowX : VRow :=
  { rownum := 2, firstname := "Xena", lastname := "Y", email := "x@y.de", joindate := "",
    join_year := none, role := "", errors := [] }

/-- A second sample row, with join year and role, for round-trip witnesses. -/
def sampleRowA : VRow :=
  { rownum := 3, firstname := "Ana", lastname := "S", email := "a@b.de",
    joindate := "03.04.2019", join_year := some 2019, role := "Mitglied", errors := [] }

/-- The join-year display string of a listed member: the decimal year when one
was stored, "" when the column is NULL. -/
def joinYearStr : Option Nat → String
  | some y => toString y
  | none => ""

/-! ## Claim C1: token domain separation by salt -/

/-- C1 (counterexample): a token issued by the photo flow (upload_photo) is
accepted, not rejected, by the card-domain verifier decode_token, because the
photo flow signs with generate_token and therefore with the very same salt
`#AllezRCB` as the card domain; the claim that each pair of the three domains
rejects the other is false for the card/photo pair. -/
theorem photo_token_accepted_by_card_verifier :
    (issue_photo_token "s3" "a@b.de" 0).toOption.bind
      (fun tok => decode_token "s3" (some 3600) tok 0) =
      some (.pdict [("user_id", "a@b.de"), ("photo_id", photo_id_of "a@b.de")]) := rfl

/-- C1 (amended): the card and photo flows share the salt `#AllezRCB` and form
one signing domain (a fresh token of that domain decodes to its payload),
while the magic-link domain signs with the distinct salt `email-login`:
a card/photo token is rejected by verify_email_token and a magic-link token by
decode_token, for all secrets, ages and payloads. -/
theorem token_domain_salts (secret secret2 : String) (kvs : List (String × String))
    (email : String) (t0 t1 m : Nat) (mo : Option Nat) (tok : Signed)
    (hgen : generate_token secret (.pdict kvs) t0 = .ok tok) :
    verify_email_token secret2 tok m t1 = none ∧
    decode_token secret mo (generate_email_token secret2 email t0) t1 = none ∧
    (t1 - t0 ≤ m → decode_token secret (some m) tok t1 = some (.pdict kvs)) := by
  simp only [generate_token, Except.ok.injEq] at hgen
  subst hgen
  refine ⟨?_, ?_, fun hage => ?_⟩
  · simp [verify_email_token, urlsafe_loads, urlsafe_dumps]
  · simp [decode_token, generate_email_token, urlsafe_loads, urlsafe_dumps]
  · have hnexp : ¬ (t1 - t0 > m) := by omega
    simp [decode_token, urlsafe_loads, urlsafe_dumps, hnexp]

/-- C1 amended, at concrete values. -/
theorem token_domain_salts_witness :
    verify_email_token "k2" (urlsafe_dumps "k1" "#AllezRCB" (.pdict [("user_id", "a@b.de")]) 5) 900 10 = none ∧
    decode_token "k1" (some 3600) (generate_email_token "k2" "a@b.de" 5) 10 = none ∧
    (10 - 5 ≤ 3600 → decode_token "k1" (some 3600)
      (urlsafe_dumps "k1" "#AllezRCB" (.pdict [("user_id", "a@b.de")]) 5) 10 =
      some (.pdict [("user_id", "a@b.de")])) :=
  token_domain_salts "k1" "k2" [("user_id", "a@b.de")] "a@b.de" 5 10 3600 (some 3600) _ rfl

/-! ## Claim C3: photo key versus pseudonym -/

/-- C3 (counterexample): for the concrete email a@b.de, the Photo Vault AES
key is exactly the sha256 digest whose hex encoding is the stored pseudonym —
there is no distinct key-derivation purpose, contradicting the claim that the
key bytes are never that digest. -/
theorem photo_key_is_pseudonym_digest :
    hexOfBytes (photo_aes_key "a@b.de") = member_pseudonym "a@b.de" := rfl

/-- C3 (amended): for every email, the Photo Vault AES key is the raw sha256
digest of the normalized email — precisely the digest whose hex encoding is
the stored pseudonym (and whose first 16 hex characters are the photo
identifier); pseudonym and key use one derivation with no domain
separation. -/
theorem photo_key_pseudonym_relation (e : String) :
    member_pseudonym e = hexOfBytes (photo_aes_key e) ∧
    photo_id_of e = ⟨(hexOfBytes (photo_aes_key e)).data.take 16⟩ := ⟨rfl, rfl⟩

/-! ## Claim C8: token lifetimes -/

/-- C8: a token verified within its nominal default max-age (3600 seconds for
the card/photo domain, 900 seconds for the magic-link domain) yields its
payload; the identical token yields None once the elapsed time exceeds that
max-age. -/
theorem token_lifetime_bounds (secret email : String) (kvs : List (String × String))
    (t0 t1 : Nat) (tok : Signed)
    (hgen : generate_token secret (.pdict kvs) t0 = .ok tok) :
    (t1 - t0 ≤ 3600 → decode_token secret (some 3600) tok t1 = some (.pdict kvs)) ∧
    (3600 < t1 - t0 → decode_token secret (some 3600) tok t1 = none) ∧
    (t1 - t0 ≤ 900 →
      verify_email_token secret (generate_email_token secret email t0) 900 t1 = some (.pstr email)) ∧
    (900 < t1 - t0 →
      verify_email_token secret (generate_email_token secret email t0) 900 t1 = none) := by
  simp only [generate_token, Except.ok.injEq] at hgen
  subst hgen
  refine ⟨fun h => ?_, fun h => ?_, fun h => ?_, fun h => ?_⟩
  · have hnexp : ¬ (t1 - t0 > 3600) := by omega
    simp [decode_token, urlsafe_loads, urlsafe_dumps, hnexp]
  · have hexp : t1 - t0 > 3600 := by omega
    simp [decode_token, urlsafe_loads, urlsafe_dumps, hexp]
  · have hnexp : ¬ (t1 - t0 > 900) := by omega
    simp [verify_email_token, generate_email_token, urlsafe_loads, urlsafe_dumps, hnexp]
  · have hexp : t1 - t0 > 900 := by omega
    simp [verify_email_token, generate_email_token, urlsafe_loads, urlsafe_dumps, hexp]

/-- C8, at concrete boundary times. -/
theorem token_lifetime_bounds_witness :
    decode_token "k" (some 3600) (urlsafe_dumps "k" "#AllezRCB" (.pdict [("user_id", "a@b.de")]) 0) 3600 =
      some (.pdict [("user_id", "a@b.de")]) ∧
    decode_token "k" (some 3600) (urlsafe_dumps "k" "#AllezRCB" (.pdict [("user_id", "a@b.de")]) 0) 3601 =
      none ∧
    verify_email_token "k" (generate_email_token "k" "a@b.de" 0) 900 900 = some (.pstr "a@b.de") ∧
    verify_email_token "k" (generate_email_token "k" "a@b.de" 0) 900 901 = none := by
  refine ⟨?_, ?_, ?_, ?_⟩
  · exact (token_lifetime_bounds "k" "a@b.de" [("user_id", "a@b.de")] 0 3600 _ rfl).1 (by decide)
  · exact (token_lifetime_bounds "k" "a@b.de" [("user_id", "a@b.de")] 0 3601 _ rfl).2.1 (by decide)
  · exact (token_lifetime_bounds "k" "a@b.de" [("user_id", "a@b.de")] 0 900 _ rfl).2.2.1 (by decide)
  · exact (token_lifetime_bounds "k" "a@b.de" [("user_id", "a@b.de")] 0 901 _ rfl).2.2.2 (by decide)

/-! ## Claim C9: photo identifier binding -/

/-- C9: a photo token embedding identifier A, even with a valid unexpired
signature, is rejected for a request naming B ≠ A with the same 403 outcome
as an expired or foreign-signed token; and a photo is served only when the
token payload embeds exactly the requested identifier. -/
theorem get_photo_id_binding (secret uid A B : String) (vault : List (String × AesBlob))
    (m t0 now : Nat) (hAB : A ≠ B) :
    get_photo secret (some m) vault B
      (urlsafe_dumps secret "#AllezRCB" (.pdict [("user_id", uid), ("photo_id", A)]) t0) now =
      .forbidden ∧
    (m < now - t0 → get_photo secret (some m) vault A
      (urlsafe_dumps secret "#AllezRCB" (.pdict [("user_id", uid), ("photo_id", A)]) t0) now =
      .forbidden) ∧
    (∀ secret2 salt2 p ts, secret2 ≠ secret ∨ salt2 ≠ "#AllezRCB" →
      get_photo secret (some m) vault B (urlsafe_dumps secret2 salt2 p ts) now = .forbidden) ∧
    (∀ tok data, get_photo secret (some m) vault B tok now = .ok data →
      ∃ kvs, decode_token secret (some m) tok now = some (.pdict kvs) ∧
        lookupKV kvs "photo_id" = some B) := by
  refine ⟨?_, fun hexp => ?_, fun secret2 salt2 p ts hbad => ?_, fun tok data hok => ?_⟩
  · by_cases hage : now - t0 > m
    · have hd : decode_token secret (some m)
          (urlsafe_dumps secret "#AllezRCB" (.pdict [("user_id", uid), ("photo_id", A)]) t0) now =
          none := by
        simp [decode_token, urlsafe_loads, urlsafe_dumps, hage]
      simp only [get_photo, hd, get_photo_with_payload]
    · have hd : decode_token secret (some m)
          (urlsafe_dumps secret "#AllezRCB" (.pdict [("user_id", uid), ("photo_id", A)]) t0) now =
          some (.pdict [("user_id", uid), ("photo_id", A)]) := by
        simp [decode_token, urlsafe_loads, urlsafe_dumps, hage]
      simp only [get_photo, hd, get_photo_with_payload]
      rw [if_pos (by simp [lookupKV, hAB])]
  · have hd : decode_token secret (some m)
        (urlsafe_dumps secret "#AllezRCB" (.pdict [("user_id", uid), ("photo_id", A)]) t0) now =
        none := by
      simp [decode_token, urlsafe_loads, urlsafe_dumps]
      omega
    simp only [get_photo, hd, get_photo_with_payload]
  · have hd : decode_token secret (some m) (urlsafe_dumps secret2 salt2 p ts) now = none := by
      simp only [decode_token, urlsafe_loads, urlsafe_dumps]
      rw [if_neg (by rintro ⟨h1, h2⟩; rcases hbad with hb | hb <;> exact hb (by simp_all))]
    simp only [get_photo, hd, get_photo_with_payload]
  · revert hok
    simp only [get_photo]
    rcases hdec : decode_token secret (some m) tok now with _ | p2
    · simp only [get_photo_with_payload]
      intro h; cases h
    · rcases p2 with kvs | s
      · simp only [get_photo_with_payload]
        by_cases hpid : lookupKV kvs "photo_id" ≠ some B
        · rw [if_pos hpid]; intro h; cases h
        · rw [if_neg hpid]
          intro _
          exact ⟨kvs, rfl, not_ne_iff.mp hpid⟩
      · simp only [get_photo_with_payload]
        intro h; cases h

/-- C9, at concrete values. -/
theorem get_photo_id_binding_witness :
    get_photo "k" (some 3600) []
      "bbbb" (urlsafe_dumps "k" "#AllezRCB" (.pdict [("user_id", "a@b.de"), ("photo_id", "aaaa")]) 0) 1 =
      .forbidden :=
  (get_photo_id_binding "k" "a@b.de" "aaaa" "bbbb" [] 3600 0 1 (by decide)).1

/-! ## Claim C4: decryption-failure masking on the listing path -/

/-- C4 (counterexample): a record whose lastname ciphertext is corrupted is
listed with every field masked, although its firstname, join-year and role
decrypt fine — members_list masks the whole record, not only the failing
field. -/
theorem members_list_masks_all_fields :
    members_list [{ email_hash := "h1", first_name_enc := .enc "Ana",
                    last_name_enc := .corrupt "x", join_year := some (.enc "2019"),
                    role := some (.enc "Vorstand") }] =
      [{ email_hash := "h1", firstname := "?", lastname := "?", join_year := "", role := "" }] ∧
    fernet_decrypt (Ct.enc "Ana") = some "Ana" ∧
    fernet_decrypt (Ct.enc "2019") = some "2019" ∧
    fernet_decrypt (Ct.enc "Vorstand") = some "Vorstand" := by decide

/-- C4 (amended): members_list still returns one record per stored row and
never raises, but its masking is all-or-nothing: a decryption failure of any
encrypted field replaces all four display fields with the placeholders, and
only a record whose present fields all decrypt is shown decrypted.  The
per-field degradation (a failing field defaults alone) holds in the card
helper _fetch_role_and_year, whose role and join-year results depend only on
their own column. -/
theorem members_list_record_masking :
    (∀ table : List StoredRec, (members_list table).length = table.length) ∧
    (∀ r : StoredRec, (members_list_row r).email_hash = r.email_hash) ∧
    (∀ r : StoredRec,
      (fernet_decrypt r.first_name_enc = none ∨ fernet_decrypt r.last_name_enc = none ∨
       decrypt_opt_field r.join_year = none ∨ decrypt_opt_field r.role = none) →
      members_list_row r =
        { email_hash := r.email_hash, firstname := "?", lastname := "?", join_year := "", role := "" }) ∧
    (∀ r : StoredRec, ∀ f l j ro,
      fernet_decrypt r.first_name_enc = some f → fernet_decrypt r.last_name_enc = some l →
      decrypt_opt_field r.join_year = some j → decrypt_opt_field r.role = some ro →
      members_list_row r =
        { email_hash := r.email_hash, firstname := f, lastname := l, join_year := j, role := ro }) ∧
    (∀ rc jc rc2 jc2 : Option Ct,
      (fetch_role_and_year rc jc).1 = (fetch_role_and_year rc jc2).1 ∧
      (fetch_role_and_year rc jc).2 = (fetch_role_and_year rc2 jc).2) := by
  refine ⟨fun table => by simp [members_list], fun r => rfl, ?_, ?_, ?_⟩
  · intro r hfail
    rcases hf : fernet_decrypt r.first_name_enc with _ | f <;>
      rcases hl : fernet_decrypt r.last_name_enc with _ | l <;>
        rcases hj : decrypt_opt_field r.join_year with _ | j <;>
          rcases hro : decrypt_opt_field r.role with _ | ro <;>
            simp_all [members_list_row, members_list_fields]
  · intro r f l j ro hf hl hj hro
    simp [members_list_row, hf, hl, hj, hro, members_list_fields]
  · intro rc jc rc2 jc2
    rcases rc <;> rcases jc <;> rcases rc2 <;> rcases jc2 <;> simp [fetch_role_and_year]

/-- C4 amended, at a concrete corrupt record. -/
theorem members_list_record_masking_witness :
    members_list_row { email_hash := "h", first_name_enc := .corrupt "z",
                       last_name_enc := .enc "B", join_year := none, role := none } =
      { email_hash := "h", firstname := "?", lastname := "?", join_year := "", role := "" } :=
  members_list_record_masking.2.2.1 _ (Or.inl rfl)

/-! ## Claim C5: duplicate-pseudonym behavior of the three commit paths -/

lemma tableHasKey_iff (t : List StoredRec) (h : String) :
    tableHasKey t h = true ↔ h ∈ t.map (·.email_hash) := by
  simp [tableHasKey, List.any_eq_true, List.mem_map]

lemma upload_go_spec (rows : List Row) : ∀ (t : List StoredRec) (n : Nat),
    (t.map (·.email_hash)).Nodup →
    ((upload_members_go rows t n).1.map (·.email_hash)).Nodup ∧
    t.length ≤ (upload_members_go rows t n).1.length ∧
    (upload_members_go rows t n).2 = n + ((upload_members_go rows t n).1.length - t.length) ∧
    (∀ k, k ∈ t.map (·.email_hash) → k ∈ (upload_members_go rows t n).1.map (·.email_hash)) ∧
    (∀ r ∈ rows, pyLower (pyStrip r.email) ≠ "" → pyStrip r.firstname ≠ "" →
      pyStrip r.lastname ≠ "" →
      sha256hex (pyLower (pyStrip r.email)) ∈ (upload_members_go rows t n).1.map (·.email_hash)) := by
  induction rows with
  | nil => intro t n hnd; simp [upload_members_go, hnd]
  | cons r rest ih =>
      intro t n hnd
      simp only [upload_members_go]
      split_ifs with hskip hdup
      · obtain ⟨c1, c2, c3, c4, c5⟩ := ih t n hnd
        refine ⟨c1, c2, c3, c4, ?_⟩
        intro r2 hr2 he hf hl
        rcases List.mem_cons.mp hr2 with rfl | hr2
        · rcases hskip with h | h | h <;> simp_all
        · exact c5 r2 hr2 he hf hl
      · obtain ⟨c1, c2, c3, c4, c5⟩ := ih t n hnd
        refine ⟨c1, c2, c3, c4, ?_⟩
        intro r2 hr2 he hf hl
        rcases List.mem_cons.mp hr2 with rfl | hr2
        · exact c4 _ ((tableHasKey_iff t _).mp hdup)
        · exact c5 r2 hr2 he hf hl
      · have hnotin : sha256hex (pyLower (pyStrip r.email)) ∉ t.map (·.email_hash) := fun hmem =>
          hdup ((tableHasKey_iff t _).mpr hmem)
        have hnd2 : ((t ++ [upload_encrypt_row r]).map (·.email_hash)).Nodup := by
          rw [List.map_append]
          simp only [List.map_cons, List.map_nil]
          exact List.Nodup.append hnd (List.nodup_singleton _)
            (by simpa [List.disjoint_singleton] using hnotin)
        obtain ⟨c1, c2, c3, c4, c5⟩ := ih (t ++ [upload_encrypt_row r]) (n + 1) hnd2
        have hlen : (t ++ [upload_encrypt_row r]).length = t.length + 1 := by simp
        refine ⟨c1, by omega, by omega, ?_, ?_⟩
        · intro k hk
          exact c4 k (by rw [List.map_append]; exact List.mem_append_left _ hk)
        · intro r2 hr2 he hf hl
          rcases List.mem_cons.mp hr2 with rfl | hr2
          · refine c4 _ ?_
            rw [List.map_append]
            exact List.mem_append_right _ (by simp [upload_encrypt_row])
          · exact c5 r2 hr2 he hf hl

lemma commit_sync_go_error (adds : List VRow) : ∀ (t : List StoredRec) (n : Nat),
    (∃ r ∈ adds, tableHasKey t (row_email_hash r) = true) →
    ∃ e, commit_sync_go adds t n = .error e := by
  induction adds with
  | nil => rintro t n ⟨r, hr, _⟩; simp at hr
  | cons r0 rest ih =>
      rintro t n ⟨r, hr, hkey⟩
      simp only [commit_sync_go]
      by_cases h0 : tableHasKey t (encrypt_member_row r0).email_hash = true
      · rw [if_pos h0]; exact ⟨_, rfl⟩
      · rw [if_neg h0]
        apply ih
        rcases List.mem_cons.mp hr with rfl | hr2
        · exact absurd hkey h0
        · refine ⟨r, hr2, ?_⟩
          rw [tableHasKey_iff] at hkey ⊢
          rw [List.map_append]
          exact List.mem_append_left _ hkey

lemma commit_members_go_error (rows : List VRow) : ∀ (t : List StoredRec) (n : Nat),
    (∃ r ∈ rows, r.errors = [] ∧ tableHasKey t (row_email_hash r) = true) →
    ∃ e, commit_members_go rows t n = .error e := by
  induction rows with
  | nil => rintro t n ⟨r, hr, _⟩; simp at hr
  | cons r0 rest ih =>
      rintro t n ⟨r, hr, herr, hkey⟩
      simp only [commit_members_go]
      split_ifs with herr0 hdup
      · apply ih
        rcases List.mem_cons.mp hr with rfl | hr2
        · exact absurd herr herr0
        · exact ⟨r, hr2, herr, hkey⟩
      · exact ⟨_, rfl⟩
      · apply ih
        rcases List.mem_cons.mp hr with rfl | hr2
        · exact absurd hkey hdup
        · refine ⟨r, hr2, herr, ?_⟩
          rw [tableHasKey_iff] at hkey ⊢
          rw [List.map_append]
          exact List.mem_append_left _ hkey

/-- C5 (counterexample): commit_sync of a batch whose first add-row carries a
pseudonym already stored aborts the whole batch with an IntegrityError
(nothing is committed), instead of skipping that row and committing the rest
as the claim states. -/
theorem commit_sync_duplicate_aborts_batch :
    commit_sync []
      [{ rownum := 2, firstname := "Xena", lastname := "Y", email := "x@y.de", joindate := "",
         join_year := none, role := "", errors := [] },
       { rownum := 3, firstname := "Nora", lastname := "N", email := "new@y.de", joindate := "",
         join_year := none, role := "", errors := [] }]
      [encrypt_member_row
        { rownum := 2, firstname := "Xena", lastname := "Y", email := "x@y.de", joindate := "",
          join_year := none, role := "", errors := [] }] =
      .error "sqlite3.IntegrityError: UNIQUE constraint failed: members.email_hash" := by decide

/-- C5 (amended): a duplicate-pseudonym insert is a recoverable, logged,
per-row skip only on the upload_members path, where every valid row ends up
keyed in the table, keys stay unique and the reported count is exactly the
number of inserted rows; in commit_members and commit_sync a duplicate
pseudonym raises an unhandled IntegrityError that aborts the whole batch with
no partial commit. -/
theorem duplicate_pseudonym_batch_behavior :
    (∀ rows : List Row,
      ((upload_members rows).1.map (·.email_hash)).Nodup ∧
      (upload_members rows).2 = (upload_members rows).1.length ∧
      (∀ r ∈ rows, pyLower (pyStrip r.email) ≠ "" → pyStrip r.firstname ≠ "" →
        pyStrip r.lastname ≠ "" →
        sha256hex (pyLower (pyStrip r.email)) ∈ (upload_members rows).1.map (·.email_hash))) ∧
    (∀ dels adds table, (∃ r ∈ adds,
        tableHasKey (delete_members_go dels table 0).1 (row_email_hash r) = true) →
      ∃ e, commit_sync dels adds table = .error e) ∧
    (∀ rows table count, (∃ r ∈ rows, r.errors = [] ∧
        tableHasKey table (row_email_hash r) = true) →
      ∃ e, commit_members_go rows table count = .error e) := by
  refine ⟨fun rows => ?_, fun dels adds table hdup => ?_, fun rows table count hdup =>
    commit_members_go_error rows table count hdup⟩
  · obtain ⟨c1, _, c3, _, c5⟩ := upload_go_spec rows [] 0 (by simp)
    exact ⟨c1, by simpa using c3, c5⟩
  · obtain ⟨e, he⟩ := commit_sync_go_error adds (delete_members_go dels table 0).1 0 hdup
    refine ⟨e, ?_⟩
    simp only [commit_sync, he]

/-! ## Error-list membership machinery for the Row Validator claims -/

lemma mem_ite_singleton {c : Prop} [Decidable c] (e x : String) :
    (e ∈ if c then [x] else []) ↔ (c ∧ e = x) := by
  split_ifs with h <;> simp [h]

lemma mem_ite_nil_singleton {c : Prop} [Decidable c] (e x : String) :
    (e ∈ if c then [] else [x]) ↔ (¬ c ∧ e = x) := by
  split_ifs with h <;> simp [h]

lemma mem_date_component (s e : String) :
    (e ∈ if s = "" then []
         else match validate_join_date s with
           | some _ => []
           | none => ["Eintrittsdatum ungültig: " ++ s]) ↔
      (s ≠ "" ∧ validate_join_date s = none ∧ e = "Eintrittsdatum ungültig: " ++ s) := by
  split_ifs with h
  · simp [h]
  · rcases hd : validate_join_date s with _ | ymd <;> simp [h, hd]

/-- Membership in the error list of one validated row, rule by rule. -/
lemma mem_errors_iff (seen : List String) (idx : Nat) (r : Row) (e : String) :
    e ∈ (validateRow seen idx r).errors ↔
      (pyStrip r.firstname = "" ∧ e = "Vorname fehlt") ∨
      (pyStrip r.lastname = "" ∧ e = "Nachname fehlt") ∨
      (¬ email_re_match (pyLower (pyStrip r.email)) = true ∧ e = "Ungültige E-Mail-Adresse") ∨
      (pyLower (pyStrip r.email) ∈ seen ∧ e = "Doppelte E-Mail-Adresse") ∨
      (pyStrip r.joindate ≠ "" ∧ validate_join_date (pyStrip r.joindate) = none ∧
        e = "Eintrittsdatum ungültig: " ++ pyStrip r.joindate) := by
  show e ∈ validate_errors seen r ↔ _
  simp only [validate_errors, List.mem_append, mem_ite_singleton, mem_ite_nil_singleton,
    mem_date_component]
  tauto

/-- No fixed validation error string coincides with a date error (their first
characters differ). -/
lemma date_err_ne (x : String) :
    ("Eintrittsdatum ungültig: " ++ x) ≠ "Vorname fehlt" ∧
    ("Eintrittsdatum ungültig: " ++ x) ≠ "Nachname fehlt" ∧
    ("Eintrittsdatum ungültig: " ++ x) ≠ "Ungültige E-Mail-Adresse" ∧
    ("Eintrittsdatum ungültig: " ++ x) ≠ "Doppelte E-Mail-Adresse" := by
  refine ⟨?_, ?_, ?_, ?_⟩ <;>
    (intro h; have h2 := congrArg String.data h; rw [String.data_append] at h2; simp at h2)

lemma dup_eq_date_err_iff (x : String) :
    ("Doppelte E-Mail-Adresse" = "Eintrittsdatum ungültig: " ++ x) ↔ False :=
  ⟨fun h => (date_err_ne x).2.2.2 h.symm, False.elim⟩

lemma invalid_eq_date_err_iff (x : String) :
    ("Ungültige E-Mail-Adresse" = "Eintrittsdatum ungültig: " ++ x) ↔ False :=
  ⟨fun h => (date_err_ne x).2.2.1 h.symm, False.elim⟩

/-- The duplicate-email error appears exactly when the normalized email was
already seen in the batch. -/
lemma dup_err_mem_iff (seen : List String) (idx : Nat) (r : Row) :
    "Doppelte E-Mail-Adresse" ∈ (validateRow seen idx r).errors ↔
      pyLower (pyStrip r.email) ∈ seen := by
  simp [mem_errors_iff, dup_eq_date_err_iff]

/-- The invalid-email error appears whenever the normalized email fails the
regex (whether or not other errors are also present). -/
lemma invalid_err_mem (seen : List String) (idx : Nat) (r : Row)
    (h : ¬ email_re_match (pyLower (pyStrip r.email)) = true) :
    "Ungültige E-Mail-Adresse" ∈ (validateRow seen idx r).errors := by
  simp [mem_errors_iff, invalid_eq_date_err_iff, h]

/-! ## Claim C2: the diff partition of sync_members -/

lemma dict_insert_keys (d : List (String × MemberView)) (kk : String) (v : MemberView)
    (k : String) :
    k ∈ (dict_insert d kk v).map (·.1) ↔ k ∈ d.map (·.1) ∨ k = kk := by
  unfold dict_insert
  split_ifs with h
  · have hmap : (d.map (fun p => if p.1 == kk then (kk, v) else p)).map (·.1) = d.map (·.1) := by
      rw [List.map_map]
      apply List.map_congr_left
      intro p hp
      by_cases hpk : p.1 == kk
      · simp only [Function.comp_apply, if_pos hpk]
        exact (beq_iff_eq.mp hpk).symm
      · simp only [Function.comp_apply, if_neg hpk]
    rw [hmap]
    constructor
    · exact Or.inl
    · rintro (hk | rfl)
      · exact hk
      · rcases List.any_eq_true.mp h with ⟨p, hp, hpk⟩
        exact List.mem_map.mpr ⟨p, hp, beq_iff_eq.mp hpk⟩
  · rw [List.map_append]
    simp [or_comm, eq_comm]

lemma existing_dict_keys (table : List StoredRec) (k : String) :
    k ∈ (existing_members_dict table).map (·.1) ↔ k ∈ table.map (·.email_hash) := by
  suffices h : ∀ d : List (String × MemberView),
      k ∈ ((table.foldl (fun d r => dict_insert d r.email_hash (members_list_row r)) d)).map (·.1) ↔
        k ∈ d.map (·.1) ∨ k ∈ table.map (·.email_hash) by
    simpa [existing_members_dict] using h []
  induction table with
  | nil => intro d; simp
  | cons r rest ih =>
      intro d
      simp only [List.foldl_cons]
      rw [ih, dict_insert_keys]
      simp only [List.map_cons, List.mem_cons]
      tauto

lemma existing_dict_entry (table : List StoredRec) :
    ∀ p ∈ existing_members_dict table, p.2.email_hash = p.1 := by
  suffices h : ∀ d : List (String × MemberView), (∀ p ∈ d, p.2.email_hash = p.1) →
      ∀ p ∈ table.foldl (fun d r => dict_insert d r.email_hash (members_list_row r)) d,
        p.2.email_hash = p.1 by
    exact h [] (by simp)
  induction table with
  | nil => intro d hd; exact hd
  | cons r rest ih =>
      intro d hd
      apply ih
      intro p hp
      simp only [dict_insert] at hp
      split_ifs at hp with h
      · rcases List.mem_map.mp hp with ⟨q, hq, hqp⟩
        by_cases hqk : q.1 == r.email_hash
        · rw [if_pos hqk] at hqp
          rw [← hqp]
          rfl
        · rw [if_neg hqk] at hqp
          rw [← hqp]
          exact hd q hq
      · rcases List.mem_append.mp hp with hp1 | hp2
        · exact hd p hp1
        · simp only [List.mem_singleton] at hp2
          rw [hp2]
          rfl

lemma mem_csv_hashes (rows : List VRow) (h : String) :
    h ∈ csv_email_hashes rows ↔ ∃ r, r ∈ rows ∧ r.errors = [] ∧ row_email_hash r = h := by
  simp only [csv_email_hashes, List.mem_filterMap]
  constructor
  · rintro ⟨r, hr, hf⟩
    by_cases he : r.errors = []
    · rw [if_pos he] at hf
      exact ⟨r, hr, he, by simpa using hf⟩
    · rw [if_neg he] at hf
      cases hf
  · rintro ⟨r, hr, he, hh⟩
    exact ⟨r, hr, by rw [if_pos he, hh]⟩

lemma mem_to_delete_iff (rows : List VRow) (table : List StoredRec) (h : String) :
    h ∈ ((sync_members rows table).to_delete).map (·.email_hash) ↔
      h ∈ table.map (·.email_hash) ∧ h ∉ csv_email_hashes rows := by
  simp only [sync_members]
  constructor
  · intro hmem
    rcases List.mem_map.mp hmem with ⟨m, hm, hmh⟩
    rcases List.mem_map.mp hm with ⟨p, hpfil, hpm⟩
    rcases List.mem_filter.mp hpfil with ⟨hpd, hpcond⟩
    have hkey := existing_dict_entry table p hpd
    have h1 : h = p.1 := by rw [← hmh, ← hpm, hkey]
    subst h1
    refine ⟨(existing_dict_keys table p.1).mp (List.mem_map.mpr ⟨p, hpd, rfl⟩), ?_⟩
    intro hc
    rw [Bool.not_eq_eq_eq_not, Bool.not_true] at hpcond
    have h2 : (csv_email_hashes rows).contains p.1 = true := List.elem_iff.mpr hc
    rw [hpcond] at h2
    cases h2
  · rintro ⟨hstored, hcsv⟩
    rcases List.mem_map.mp ((existing_dict_keys table h).mpr hstored) with ⟨p, hpd, hph⟩
    apply List.mem_map.mpr
    refine ⟨p.2, List.mem_map.mpr ⟨p, List.mem_filter.mpr ⟨hpd, ?_⟩, rfl⟩,
      by rw [existing_dict_entry table p hpd, hph]⟩
    rw [hph]
    simp only [Bool.not_eq_eq_eq_not, Bool.not_true]
    cases hcon : (csv_email_hashes rows).contains h with
    | false => rfl
    | true => exact absurd (List.elem_iff.mp hcon) hcsv

lemma mem_existing_iff (rows : List VRow) (table : List StoredRec) (r : VRow) :
    r ∈ (sync_members rows table).existing ↔
      r ∈ rows ∧ r.errors = [] ∧ row_email_hash r ∈ table.map (·.email_hash) := by
  simp only [sync_members, List.mem_filter, Bool.and_eq_true, beq_iff_eq, List.elem_iff,
    existing_dict_keys, and_assoc]

lemma mem_to_add_iff (rows : List VRow) (table : List StoredRec) (r : VRow) :
    r ∈ (sync_members rows table).to_add ↔
      r ∈ rows ∧ r.errors = [] ∧ row_email_hash r ∉ table.map (·.email_hash) := by
  simp only [sync_members, List.mem_filter, Bool.and_eq_true, beq_iff_eq,
    Bool.not_eq_eq_eq_not, Bool.not_true, and_assoc]
  rw [← Bool.not_eq_true, List.elem_iff, existing_dict_keys]

lemma mem_existing_hashes (rows : List VRow) (table : List StoredRec) (h : String) :
    h ∈ ((sync_members rows table).existing).map row_email_hash ↔
      h ∈ csv_email_hashes rows ∧ h ∈ table.map (·.email_hash) := by
  rw [mem_csv_hashes]
  constructor
  · intro hm
    rcases List.mem_map.mp hm with ⟨r, hr, rfl⟩
    rcases (mem_existing_iff rows table r).mp hr with ⟨h1, h2, h3⟩
    exact ⟨⟨r, h1, h2, rfl⟩, h3⟩
  · rintro ⟨⟨r, h1, h2, rfl⟩, h3⟩
    exact List.mem_map.mpr ⟨r, (mem_existing_iff rows table r).mpr ⟨h1, h2, h3⟩, rfl⟩

lemma mem_to_add_hashes (rows : List VRow) (table : List StoredRec) (h : String) :
    h ∈ ((sync_members rows table).to_add).map row_email_hash ↔
      h ∈ csv_email_hashes rows ∧ h ∉ table.map (·.email_hash) := by
  rw [mem_csv_hashes]
  constructor
  · intro hm
    rcases List.mem_map.mp hm with ⟨r, hr, rfl⟩
    rcases (mem_to_add_iff rows table r).mp hr with ⟨h1, h2, h3⟩
    exact ⟨⟨r, h1, h2, rfl⟩, h3⟩
  · rintro ⟨⟨r, h1, h2, rfl⟩, h3⟩
    exact List.mem_map.mpr ⟨r, (mem_to_add_iff rows table r).mpr ⟨h1, h2, h3⟩, rfl⟩

/-- C2: sync_members yields a total, disjoint partition: every stored
pseudonym lands in exactly one of to_delete and existing, every pseudonym of
an error-free staged row lands in exactly one of to_add and existing, and the
buckets contain nothing else (to_delete only stored members, to_add and
existing only error-free staged rows). -/
theorem sync_members_partition (rows : List VRow) (table : List StoredRec) :
    (∀ h, h ∈ table.map (·.email_hash) →
      (h ∈ ((sync_members rows table).to_delete).map (·.email_hash) ∧
        h ∉ ((sync_members rows table).existing).map row_email_hash) ∨
      (h ∉ ((sync_members rows table).to_delete).map (·.email_hash) ∧
        h ∈ ((sync_members rows table).existing).map row_email_hash)) ∧
    (∀ r ∈ rows, r.errors = [] →
      (row_email_hash r ∈ ((sync_members rows table).to_add).map row_email_hash ∧
        row_email_hash r ∉ ((sync_members rows table).existing).map row_email_hash) ∨
      (row_email_hash r ∉ ((sync_members rows table).to_add).map row_email_hash ∧
        row_email_hash r ∈ ((sync_members rows table).existing).map row_email_hash)) ∧
    (∀ m ∈ (sync_members rows table).to_delete, m.email_hash ∈ table.map (·.email_hash)) ∧
    (∀ r ∈ (sync_members rows table).to_add, r ∈ rows ∧ r.errors = []) ∧
    (∀ r ∈ (sync_members rows table).existing, r ∈ rows ∧ r.errors = []) := by
  refine ⟨fun h hstored => ?_, fun r hr herr => ?_, fun m hm => ?_, fun r hr => ?_, fun r hr => ?_⟩
  · by_cases hc : h ∈ csv_email_hashes rows
    · exact Or.inr ⟨fun hd => ((mem_to_delete_iff rows table h).mp hd).2 hc,
        (mem_existing_hashes rows table h).mpr ⟨hc, hstored⟩⟩
    · exact Or.inl ⟨(mem_to_delete_iff rows table h).mpr ⟨hstored, hc⟩,
        fun he => hc ((mem_existing_hashes rows table h).mp he).1⟩
  · have hc : row_email_hash r ∈ csv_email_hashes rows :=
      (mem_csv_hashes rows _).mpr ⟨r, hr, herr, rfl⟩
    by_cases hs : row_email_hash r ∈ table.map (·.email_hash)
    · exact Or.inr ⟨fun ha => ((mem_to_add_hashes rows table _).mp ha).2 hs,
        (mem_existing_hashes rows table _).mpr ⟨hc, hs⟩⟩
    · exact Or.inl ⟨(mem_to_add_hashes rows table _).mpr ⟨hc, hs⟩,
        fun he => hs ((mem_existing_hashes rows table _).mp he).2⟩
  · exact ((mem_to_delete_iff rows table m.email_hash).mp
      (List.mem_map.mpr ⟨m, hm, rfl⟩)).1
  · exact ⟨((mem_to_add_iff rows table r).mp hr).1, ((mem_to_add_iff rows table r).mp hr).2.1⟩
  · exact ⟨((mem_existing_iff rows table r).mp hr).1, ((mem_existing_iff rows table r).mp hr).2.1⟩

/-- C2, at concrete values: a stored pseudonym absent from an empty batch
lands in exactly one bucket. -/
theorem sync_members_partition_witness :
    (row_email_hash sampleRowX ∈
        ((sync_members [] [encrypt_member_row sampleRowX]).to_delete).map (·.email_hash) ∧
      row_email_hash sampleRowX ∉
        ((sync_members [] [encrypt_member_row sampleRowX]).existing).map row_email_hash) ∨
    (row_email_hash sampleRowX ∉
        ((sync_members [] [encrypt_member_row sampleRowX]).to_delete).map (·.email_hash) ∧
      row_email_hash sampleRowX ∈
        ((sync_members [] [encrypt_member_row sampleRowX]).existing).map row_email_hash) :=
  (sync_members_partition [] [encrypt_member_row sampleRowX]).1 _ (by decide)

/-! ## Claim C10: batch-local duplicate tracking of validate_rows -/

lemma validate_rows_go_length (rows : List Row) : ∀ (seen : List String) (idx : Nat),
    (validate_rows_go rows seen idx).length = rows.length := by
  induction rows with
  | nil => intro seen idx; rfl
  | cons r rest ih => intro seen idx; simp [validate_rows_go, ih]

lemma validate_rows_go_getD (rows : List Row) : ∀ (seen : List String) (idx i : Nat),
    i < rows.length →
    (validate_rows_go rows seen idx).getD i VRow.dflt =
      validateRow (((rows.take i).map (fun r => pyLower (pyStrip r.email))).reverse ++ seen)
        (idx + i) (rows.getD i {}) := by
  induction rows with
  | nil => intro seen idx i h; simp at h
  | cons r rest ih =>
      intro seen idx i hi
      cases i with
      | zero => simp [validate_rows_go]
      | succ i2 =>
          have hi2 : i2 < rest.length := by simpa using hi
          simp only [validate_rows_go, List.getD_cons_succ]
          rw [ih _ _ i2 hi2]
          congr 1
          · simp [validateRow, List.take_succ_cons, List.reverse_cons, List.append_assoc]
          · omega

lemma mem_map_take_iff (l : List Row) (i : Nat) (x : String) :
    x ∈ (l.take i).map (fun r => pyLower (pyStrip r.email)) ↔
      ∃ j, j < i ∧ j < l.length ∧ pyLower (pyStrip (l.getD j {}).email) = x := by
  constructor
  · intro hx
    rcases List.mem_map.mp hx with ⟨r, hr, hrx⟩
    rcases List.mem_iff_getElem.mp hr with ⟨j, hj, hjr⟩
    have hjm : j < min i l.length := by simpa using hj
    have hjl : j < l.length := lt_of_lt_of_le hjm (min_le_right i l.length)
    refine ⟨j, lt_of_lt_of_le hjm (min_le_left i l.length), hjl, ?_⟩
    rw [List.getD_eq_getElem l _ hjl]
    rw [List.getElem_take] at hjr
    rw [hjr, hrx]
  · rintro ⟨j, hji, hjl, hx⟩
    subst hx
    apply List.mem_map.mpr
    have hjt : j < (l.take i).length := by simp; omega
    refine ⟨(l.take i)[j], List.getElem_mem hjt, ?_⟩
    rw [List.getElem_take, ← List.getD_eq_getElem l _ hjl]

/-- C10: validate_rows enters every row's trimmed lowercased email into the
batch-local duplicate set regardless of validity: it returns exactly one
output row per input row, a row with no earlier occurrence of its normalized
email never carries the duplicate-email error, a row repeating any earlier
email (empty and malformed ones included) carries it, and an invalid email
additionally carries the invalid-email error. -/
theorem validate_rows_duplicate_tracking (rows : List Row) :
    (validate_rows rows).length = rows.length ∧
    (∀ i, i < rows.length →
      ((validate_rows rows).getD i VRow.dflt).email =
        pyLower (pyStrip (rows.getD i {}).email) ∧
      ((∀ j, j < i →
          pyLower (pyStrip (rows.getD j {}).email) ≠ pyLower (pyStrip (rows.getD i {}).email)) →
        "Doppelte E-Mail-Adresse" ∉ ((validate_rows rows).getD i VRow.dflt).errors) ∧
      ((∃ j, j < i ∧
          pyLower (pyStrip (rows.getD j {}).email) = pyLower (pyStrip (rows.getD i {}).email)) →
        "Doppelte E-Mail-Adresse" ∈ ((validate_rows rows).getD i VRow.dflt).errors) ∧
      (¬ email_re_match (pyLower (pyStrip (rows.getD i {}).email)) = true →
        "Ungültige E-Mail-Adresse" ∈ ((validate_rows rows).getD i VRow.dflt).errors)) := by
  refine ⟨validate_rows_go_length rows [] 2, fun i hi => ?_⟩
  have hget : (validate_rows rows).getD i VRow.dflt =
      validateRow (((rows.take i).map (fun r => pyLower (pyStrip r.email))).reverse ++ [])
        (2 + i) (rows.getD i {}) :=
    validate_rows_go_getD rows [] 2 i hi
  rw [hget]
  refine ⟨rfl, fun hne => ?_, fun hex => ?_, fun hbad => ?_⟩
  · rw [dup_err_mem_iff]
    intro hmem
    rw [List.append_nil, List.mem_reverse, mem_map_take_iff] at hmem
    rcases hmem with ⟨j, hji, _, hx⟩
    exact hne j hji hx
  · rw [dup_err_mem_iff]
    rcases hex with ⟨j, hji, hx⟩
    rw [List.append_nil, List.mem_reverse, mem_map_take_iff]
    exact ⟨j, hji, by omega, hx⟩
  · exact invalid_err_mem _ _ _ hbad

/-- C10, on a concrete batch with two empty emails. -/
theorem validate_rows_duplicate_tracking_witness :
    (validate_rows [{ email := "", firstname := "A", lastname := "B" },
                    { email := "", firstname := "C", lastname := "D" }]).length = 2 ∧
    "Doppelte E-Mail-Adresse" ∈
      ((validate_rows [{ email := "", firstname := "A", lastname := "B" },
                       { email := "", firstname := "C", lastname := "D" }]).getD 1 VRow.dflt).errors ∧
    "Ungültige E-Mail-Adresse" ∈
      ((validate_rows [{ email := "", firstname := "A", lastname := "B" },
                       { email := "", firstname := "C", lastname := "D" }]).getD 1 VRow.dflt).errors ∧
    "Doppelte E-Mail-Adresse" ∉
      ((validate_rows [{ email := "", firstname := "A", lastname := "B" },
                       { email := "", firstname := "C", lastname := "D" }]).getD 0 VRow.dflt).errors := by
  have h := validate_rows_duplicate_tracking
    [{ email := "", firstname := "A", lastname := "B" },
     { email := "", firstname := "C", lastname := "D" }]
  refine ⟨h.1, (h.2 1 (by decide)).2.2.1 ⟨0, by decide, by decide⟩,
    (h.2 1 (by decide)).2.2.2 (by decide),
    (h.2 0 (by decide)).2.1 (fun j hj => absurd hj (by omega))⟩

/-! ## Claim C6: join-date parsing order -/

/-- C6 (counterexample): on the join date 03/04/2019 the lenient day-first
parser succeeds (the claimed third stage, which exists in upload_members),
yet validate_rows records the date error naming the raw value and derives no
join-year: the Row Validator chain has only the two strptime stages. -/
theorem validate_rows_lacks_lenient_stage :
    validate_rows [{ email := "a@b.de", firstname := "Ana", lastname := "S",
                       joindate := "03/04/2019" }] =
      [{ rownum := 2, firstname := "Ana", lastname := "S", email := "a@b.de",
         joindate := "03/04/2019", join_year := none, role := "",
         errors := ["Eintrittsdatum ungültig: 03/04/2019"] }] ∧
    dateutil_dayfirst "03/04/2019" = some (2019, 4, 3) ∧
    upload_join_date "03/04/2019" = some (2019, 4, 3) := by
  refine ⟨by decide, by decide, by decide⟩

/-- C6 (amended): validate_rows parses a non-empty join date with
day.month.year first and ISO year-month-day second; the first success supplies
the derived join-year and no date error is recorded, while failure of both
records an error naming the offending raw value.  The lenient day-first
general parser is the third stage only of the separate upload_members
chain. -/
theorem join_date_parse_order (s : String) (r : Row) (seen : List String) (idx : Nat) :
    (∀ ymd, strptime_dmy s = some ymd → validate_join_date s = some ymd) ∧
    (strptime_dmy s = none → validate_join_date s = strptime_iso s) ∧
    (∀ ymd, strptime_dmy s = some ymd → upload_join_date s = some ymd) ∧
    (strptime_dmy s = none → strptime_iso s = none → upload_join_date s = dateutil_dayfirst s) ∧
    (∀ ymd, pyStrip r.joindate ≠ "" → validate_join_date (pyStrip r.joindate) = some ymd →
      (validateRow seen idx r).join_year = some ymd.1 ∧
      ("Eintrittsdatum ungültig: " ++ pyStrip r.joindate) ∉ (validateRow seen idx r).errors) ∧
    (pyStrip r.joindate ≠ "" → validate_join_date (pyStrip r.joindate) = none →
      (validateRow seen idx r).join_year = none ∧
      ("Eintrittsdatum ungültig: " ++ pyStrip r.joindate) ∈ (validateRow seen idx r).errors) := by
  refine ⟨fun ymd h => by simp [validate_join_date, h],
    fun h => by simp [validate_join_date, h],
    fun ymd h => by simp [upload_join_date, h],
    fun h1 h2 => by simp [upload_join_date, h1, h2],
    fun ymd hne hsome => ⟨by simp [validateRow, hne, hsome], ?_⟩,
    fun hne hnone => ⟨by simp [validateRow, hne, hnone], ?_⟩⟩
  · intro hmem
    rcases (mem_errors_iff seen idx r _).mp hmem with
      ⟨_, h⟩ | ⟨_, h⟩ | ⟨_, h⟩ | ⟨_, h⟩ | ⟨_, hn, _⟩
    · exact (date_err_ne _).1 h
    · exact (date_err_ne _).2.1 h
    · exact (date_err_ne _).2.2.1 h
    · exact (date_err_ne _).2.2.2 h
    · rw [hsome] at hn; cases hn
  · exact (mem_errors_iff seen idx r _).mpr (Or.inr (Or.inr (Or.inr (Or.inr ⟨hne, hnone, rfl⟩))))

/-- C6 amended, at concrete dates. -/
theorem join_date_parse_order_witness :
    validate_join_date "03.04.2019" = some (2019, 4, 3) ∧
    upload_join_date "03/04/2019" = some (2019, 4, 3) ∧
    (validateRow [] 2 { email := "a@b.de", firstname := "A", lastname := "B",
                        joindate := "03.04.2019" }).join_year = some 2019 ∧
    (validateRow [] 2 { email := "a@b.de", firstname := "A", lastname := "B",
                        joindate := "xx" }).join_year = none ∧
    ("Eintrittsdatum ungültig: " ++ pyStrip "xx") ∈
      (validateRow [] 2 { email := "a@b.de", firstname := "A", lastname := "B",
                          joindate := "xx" }).errors := by
  refine ⟨?_, ?_, ?_, ?_, ?_⟩
  · exact (join_date_parse_order "03.04.2019" {} [] 2).1 (2019, 4, 3) (by decide)
  · exact (join_date_parse_order "03/04/2019" {} [] 2).2.2.2.1 (by decide) (by decide)
  · exact ((join_date_parse_order ""
      { email := "a@b.de", firstname := "A", lastname := "B", joindate := "03.04.2019" }
      [] 2).2.2.2.2.1 (2019, 4, 3) (by decide) (by decide)).1
  · exact ((join_date_parse_order ""
      { email := "a@b.de", firstname := "A", lastname := "B", joindate := "xx" }
      [] 2).2.2.2.2.2 (by decide) (by decide)).1
  · exact ((join_date_parse_order ""
      { email := "a@b.de", firstname := "A", lastname := "B", joindate := "xx" }
      [] 2).2.2.2.2.2 (by decide) (by decide)).2

/-- C5 amended, at concrete values: a valid upload row is keyed in the final
table, and a concrete duplicate aborts commit_sync. -/
theorem duplicate_pseudonym_batch_behavior_witness :
    sha256hex (pyLower (pyStrip "x@y.de")) ∈
      ((upload_members [{ email := "x@y.de", firstname := "Xena", lastname := "Y" }]).1.map
        (·.email_hash)) ∧
    (∃ e, commit_sync []
      [{ rownum := 2, firstname := "Xena", lastname := "Y", email := "x@y.de", joindate := "",
         join_year := none, role := "", errors := [] }]
      [encrypt_member_row
        { rownum := 2, firstname := "Xena", lastname := "Y", email := "x@y.de", joindate := "",
          join_year := none, role := "", errors := [] }] = .error e) := by
  constructor
  · exact (duplicate_pseudonym_batch_behavior.1
      [{ email := "x@y.de", firstname := "Xena", lastname := "Y" }]).2.2 _
      (List.mem_singleton.mpr rfl) (by decide) (by decide) (by decide)
  · exact duplicate_pseudonym_batch_behavior.2.1 [] _ _
      ⟨_, List.mem_singleton.mpr rfl, by decide⟩

/-! ## Claim C7: bulk replace then list round-trips -/

lemma commit_members_go_ok (rows : List VRow) : ∀ (table : List StoredRec) (count : Nat),
    (∀ r ∈ rows, r.errors = []) →
    (rows.map row_email_hash).Nodup →
    (∀ r ∈ rows, row_email_hash r ∉ table.map (·.email_hash)) →
    commit_members_go rows table count =
      .ok (table ++ rows.map encrypt_member_row, count + rows.length) := by
  induction rows with
  | nil => intro t c _ _ _; simp [commit_members_go]
  | cons r rest ih =>
      intro t c herr hnd hdisj
      simp only [commit_members_go]
      rw [if_neg (by simp [herr r (List.mem_cons_self r rest)])]
      rw [if_neg (show ¬ tableHasKey t (encrypt_member_row r).email_hash = true from
        fun hkey => hdisj r (List.mem_cons_self r rest) ((tableHasKey_iff t _).mp hkey))]
      have hnd2 : (rest.map row_email_hash).Nodup := (List.nodup_cons.mp hnd).2
      have hhead : row_email_hash r ∉ rest.map row_email_hash := (List.nodup_cons.mp hnd).1
      rw [ih (t ++ [encrypt_member_row r]) (c + 1)
        (fun r2 h2 => herr r2 (List.mem_cons_of_mem r h2)) hnd2 ?_]
      · simp only [List.map_cons, List.append_assoc, List.singleton_append, List.length_cons]
        have harith : c + 1 + rest.length = c + (rest.length + 1) := by omega
        rw [harith]
      · intro r2 h2 hmem
        rw [List.map_append] at hmem
        rcases List.mem_append.mp hmem with hmem | hmem
        · exact hdisj r2 (List.mem_cons_of_mem r h2) hmem
        · simp only [List.map_cons, List.map_nil, List.mem_singleton] at hmem
          have hmem2 : row_email_hash r2 = row_email_hash r := hmem
          exact hhead (hmem2 ▸ List.mem_map.mpr ⟨r2, h2, rfl⟩)

lemma members_list_row_encrypt (r : VRow) (h1 : pyStrip r.firstname = r.firstname)
    (h2 : pyStrip r.lastname = r.lastname) (h3 : pyStrip r.role = r.role)
    (h4 : r.join_year ≠ some 0) :
    members_list_row (encrypt_member_row r) =
      { email_hash := row_email_hash r, firstname := r.firstname, lastname := r.lastname,
        join_year := joinYearStr r.join_year, role := r.role } := by
  rcases hj : r.join_year with _ | y
  · simp [members_list_row, encrypt_member_row, fernet_encrypt, fernet_decrypt,
      decrypt_opt_field, members_list_fields, joinYearStr, h1, h2, h3, hj]
  · have hy : ¬ y = 0 := fun h => h4 (by rw [hj, h])
    simp [members_list_row, encrypt_member_row, fernet_encrypt, fernet_decrypt,
      decrypt_opt_field, members_list_fields, joinYearStr, h1, h2, h3, hj, hy]

/-- C7: for every list of error-free canonical rows whose emails (and hence,
assuming sha256 produces no collision on the batch, whose pseudonyms) are
pairwise distinct, commit_members commits every row, reports their count, and
members_list returns exactly those rows with firstname, lastname, role and
join-year round-tripped through encryption unchanged. -/
theorem commit_then_list_roundtrip (rows : List VRow)
    (herr : ∀ r ∈ rows, r.errors = [])
    (hcanon : ∀ r ∈ rows, pyStrip r.firstname = r.firstname ∧ pyStrip r.lastname = r.lastname ∧
      pyStrip r.role = r.role ∧ r.join_year ≠ some 0)
    (_hemails : (rows.map (·.email)).Nodup)
    (hhashes : (rows.map row_email_hash).Nodup) :
    commit_members rows = .ok (rows.map encrypt_member_row, rows.length) ∧
    members_list (rows.map encrypt_member_row) = rows.map (fun r =>
      { email_hash := row_email_hash r, firstname := r.firstname, lastname := r.lastname,
        join_year := joinYearStr r.join_year, role := r.role }) := by
  constructor
  · have h := commit_members_go_ok rows [] 0 herr hhashes (by simp)
    simpa [commit_members] using h
  · simp only [members_list, List.map_map]
    apply List.map_congr_left
    intro r hr
    obtain ⟨h1, h2, h3, h4⟩ := hcanon r hr
    simp only [Function.comp_apply]
    exact members_list_row_encrypt r h1 h2 h3 h4

/-- C7, on a concrete two-row batch. -/
theorem commit_then_list_roundtrip_witness :
    commit_members [sampleRowX, sampleRowA] =
      .ok ([encrypt_member_row sampleRowX, encrypt_member_row sampleRowA], 2) ∧
    members_list [encrypt_member_row sampleRowX, encrypt_member_row sampleRowA] =
      [{ email_hash := row_email_hash sampleRowX, firstname := "Xena", lastname := "Y",
         join_year := "", role := "" },
       { email_hash := row_email_hash sampleRowA, firstname := "Ana", lastname := "S",
         join_year := "2019", role := "Mitglied" }] := by
  have h := commit_then_list_roundtrip [sampleRowX, sampleRowA]
    (by decide) (by decide) (by decide) (by decide)
  exact ⟨h.1, h.2⟩

end OpenPass
